import Mathlib

/-!
Shallow embedding of the stock-tracker application core: the tracker data
model, the reconciliation merge performed by `refreshPrices`, the staleness
predicate of the auto-refresh effect, the progress sort, the import
validation, and the price-ingestion service `fetchStockPrices` with its
regex fallback extraction.  Numbers are modelled as rationals, timestamps
as rationals (milliseconds), JS `undefined`/`null` fields as `Option`.
-/

/-- Mirrors the TS interface `StockTracker` (src/types.ts).  Optional TS
fields become `Option`; `number | null` fields become `Option ℚ`. -/
structure StockTracker where
  id : String
  symbol : String
  companyName : Option String := none
  startPrice : ℚ
  targetPrice : ℚ
  currentPrice : Option ℚ := none
  lastUpdated : Option ℚ := none
  sourceUrl : Option String := none
  sourceTitle : Option String := none
  isCompleted : Option Bool := none
  errorMessage : Option String := none
deriving Repr, DecidableEq

/-- Mirrors the TS interface `PriceUpdateResult` (src/types.ts). -/
structure PriceUpdateResult where
  symbol : String
  price : ℚ
  companyName : Option String := none
  sourceUrl : Option String := none
  sourceTitle : Option String := none
deriving Repr, DecidableEq

/-- Mirrors the TS enum `SortOption` (src/types.ts). -/
inductive SortOption where
  | ADDED_DESC
  | PROGRESS_DESC
  | PROGRESS_ASC
deriving Repr, DecidableEq

/-- JS truthiness-based string fallback `a || b` for optional strings:
`undefined` and the empty string are falsy, so they yield `b`. -/
def jsOrString (a b : Option String) : Option String :=
  match a with
  | some s => if s = "" then b else some s
  | none => b

/-- JS boolean coercion of an optional flag: `undefined` is falsy.  Used
for `!s.isCompleted` style tests on the optional `isCompleted` field. -/
def jsCompleted (s : StockTracker) : Bool :=
  s.isCompleted.getD false

/-- Mirrors `Array.from(new Set(xs))`: deduplication keeping the first
occurrence of each element, in insertion order. -/
def jsSetDedup (l : List String) : List String :=
  l.foldl (fun acc a => if a ∈ acc then acc else acc ++ [a]) []

/-- The symbol set requested by `refreshPrices` for a target subset
(App line 133): `Array.from(new Set(targets.map(s => s.symbol)))`. -/
def refreshSymbols (targets : List StockTracker) : List String :=
  jsSetDedup (targets.map StockTracker.symbol)

/-- The per-tracker merge performed inside `setStocks` on successful
ingestion return (App lines 139-166): trackers whose symbol is outside the
requested set are returned as-is; otherwise the tracker is updated from
the result found for its symbol, or marked failed when no usable price
exists. -/
def mergeStock (symbols : List String) (results : List PriceUpdateResult)
    (now : ℚ) (stock : StockTracker) : StockTracker :=
  if stock.symbol ∈ symbols then
    match results.find? (fun r => r.symbol == stock.symbol) with
    | some update =>
      if update.price > 0 then
        { stock with
            currentPrice := some update.price
            companyName := jsOrString update.companyName stock.companyName
            lastUpdated := some now
            sourceUrl := update.sourceUrl
            sourceTitle := update.sourceTitle
            errorMessage := none }
      else
        { stock with
            lastUpdated := some now
            errorMessage := some "Symbol not found or data unavailable" }
    | none =>
      { stock with
          lastUpdated := some now
          errorMessage := some "Symbol not found or data unavailable" }
  else stock

/-- The list-level merge on successful ingestion (App lines 138-167). -/
def refreshMergeOk (symbols : List String) (results : List PriceUpdateResult)
    (now : ℚ) (stocks : List StockTracker) : List StockTracker :=
  stocks.map (mergeStock symbols results now)

/-- The per-tracker merge performed inside `setStocks` in the batch-failure
catch handler (App lines 174-183). -/
def mergeStockBatchFail (symbols : List String) (now : ℚ)
    (stock : StockTracker) : StockTracker :=
  if stock.symbol ∈ symbols then
    { stock with
        lastUpdated := some now
        errorMessage := some "Update failed" }
  else stock

/-- The list-level merge on batch-level ingestion failure
(App lines 174-183). -/
def refreshMergeFail (symbols : List String) (now : ℚ)
    (stocks : List StockTracker) : List StockTracker :=
  stocks.map (mergeStockBatchFail symbols now)

/-- `String.prototype.toUpperCase` modelled characterwise. -/
def jsToUpper (s : String) : String :=
  String.mk (s.data.map Char.toUpper)

/-- The tracker built by `AddTrackerForm.handleSubmit` (AddTrackerForm
lines 22-29): fresh id, uppercased symbol, parsed prices, no current
price, no timestamp. -/
def newTracker (id : String) (symbol : String) (startPrice targetPrice : ℚ) :
    StockTracker :=
  { id := id
    symbol := jsToUpper symbol
    startPrice := startPrice
    targetPrice := targetPrice
    currentPrice := none
    lastUpdated := none }

/-- `handleAddStock` (App line 50): prepend the new tracker. -/
def handleAddStock (t : StockTracker) (stocks : List StockTracker) :
    List StockTracker :=
  t :: stocks

/-- `handleDeleteStock` (App line 57): drop the tracker with the id. -/
def handleDeleteStock (id : String) (stocks : List StockTracker) :
    List StockTracker :=
  stocks.filter (fun s => s.id ≠ id)

/-- `handleToggleComplete` (App lines 60-67): flip the (JS-falsy-coerced)
completion flag of the tracker with the id. -/
def handleToggleComplete (id : String) (stocks : List StockTracker) :
    List StockTracker :=
  stocks.map (fun s =>
    if s.id = id then { s with isCompleted := some (!jsCompleted s) } else s)

/-- The staleness test used by the auto-refresh effect (App lines 199 and
205): `s.lastUpdated === null || (Date.now() - (s.lastUpdated || 0) > 3600000)`. -/
def isStale (now : ℚ) (s : StockTracker) : Bool :=
  match s.lastUpdated with
  | none => true
  | some t => decide (now - t > 3600000)

/-- The subset of trackers the auto-refresh effect passes to
`refreshPrices` (App lines 194, 205): non-completed trackers that are
stale. -/
def autoRefreshTargets (now : ℚ) (stocks : List StockTracker) :
    List StockTracker :=
  (stocks.filter (fun s => !jsCompleted s)).filter (isStale now)

/-- Progress computation inside `getSortedStocks` (App lines 216-221). -/
def getProgress (s : StockTracker) : ℚ :=
  match s.currentPrice with
  | none => -9999
  | some cp =>
    if s.targetPrice - s.startPrice = 0 then 0
    else (cp - s.startPrice) / (s.targetPrice - s.startPrice) * 100

/-- Stable insertion of one tracker into an already-sorted list:
`le a b` says `a` may be placed before `b`. -/
def sortInsert (le : StockTracker → StockTracker → Bool)
    (a : StockTracker) : List StockTracker → List StockTracker
  | [] => [a]
  | b :: l => if le a b then a :: b :: l else b :: sortInsert le a l

/-- Stable sort; models the (stable) JS `Array.prototype.sort` with a
consistent comparator. -/
def stableSortBy (le : StockTracker → StockTracker → Bool)
    (l : List StockTracker) : List StockTracker :=
  l.foldr (sortInsert le) []

/-- `getSortedStocks` (App lines 212-230): insertion order as-is, or a
stable sort by the progress key; the JS comparator `pB - pA` (descending)
places `a` before `b` when `pB ≤ pA`, and dually for ascending. -/
def getSortedStocks (sortBy : SortOption) (list : List StockTracker) :
    List StockTracker :=
  match sortBy with
  | SortOption.ADDED_DESC => list
  | SortOption.PROGRESS_DESC =>
    stableSortBy (fun a b => decide (getProgress b ≤ getProgress a)) list
  | SortOption.PROGRESS_ASC =>
    stableSortBy (fun a b => decide (getProgress a ≤ getProgress b)) list

/-! ### JSON values and the import path -/

/-- A JSON value as produced by `JSON.parse`; numbers are rationals. -/
inductive Json where
  | null
  | bool (b : Bool)
  | num (q : ℚ)
  | str (s : String)
  | arr (items : List Json)
  | obj (fields : List (String × Json))

/-- Last-binding-wins field lookup, matching how `JSON.parse` resolves
duplicate keys in an object literal. -/
def jsonField (fields : List (String × Json)) (k : String) : Option Json :=
  match fields with
  | [] => none
  | (k1, v) :: rest =>
    match jsonField rest k with
    | some v2 => some v2
    | none => if k1 = k then some v else none

/-- JS property access `v.k` modelled with exception tracking: `none`
means a thrown `TypeError` (property access on `null`), `some none` means
the property is `undefined`, `some (some w)` the property value. -/
def jsGetProp : Json → String → Option (Option Json)
  | Json.null, _ => none
  | Json.obj fields, k => some (jsonField fields k)
  | _, _ => some none

/-- JS truthiness of a JSON value. -/
def jsTruthy : Json → Bool
  | Json.null => false
  | Json.bool b => b
  | Json.num q => q ≠ 0
  | Json.str s => s ≠ ""
  | Json.arr _ => true
  | Json.obj _ => true

/-- JS truthiness of a possibly-`undefined` value. -/
def jsTruthyOpt : Option Json → Bool
  | none => false
  | some v => jsTruthy v

/-- The per-element validation of `handleImportFile` (App line 98):
`item.id && item.symbol && item.startPrice !== undefined`, with `none`
recording a thrown exception. -/
def importItemCheck (item : Json) : Option Bool :=
  match jsGetProp item "id" with
  | none => none
  | some fid =>
    if !jsTruthyOpt fid then some false
    else
      match jsGetProp item "symbol" with
      | none => none
      | some fsym =>
        if !jsTruthyOpt fsym then some false
        else
          match jsGetProp item "startPrice" with
          | none => none
          | some fsp => some fsp.isSome

/-- `parsedData.every(item => ...)` with short-circuiting and exception
propagation. -/
def importCheckAll : List Json → Option Bool
  | [] => some true
  | item :: rest =>
    match importItemCheck item with
    | none => none
    | some false => some false
    | some true => importCheckAll rest

/-- String field read of a dynamic imported object. -/
def jStr : Option Json → Option String
  | some (Json.str s) => some s
  | _ => none

/-- Numeric field read of a dynamic imported object. -/
def jNum : Option Json → Option ℚ
  | some (Json.num q) => some q
  | _ => none

/-- Plain (non-throwing) field read used for the typed view of an object
being imported. -/
def jGet (j : Json) (k : String) : Option Json :=
  match j with
  | Json.obj fields => jsonField fields k
  | _ => none

/-- The typed view of one imported JSON object as a `StockTracker`: the
source stores the parsed objects directly into the tracker list with no
field-level conversion, so this decoding is the bridge from dynamic JSON
to the typed model (absent or wrongly-typed fields read as absent). -/
def decodeTracker (j : Json) : StockTracker :=
  { id := (jStr (jGet j "id")).getD ""
    symbol := (jStr (jGet j "symbol")).getD ""
    companyName := jStr (jGet j "companyName")
    startPrice := (jNum (jGet j "startPrice")).getD 0
    targetPrice := (jNum (jGet j "targetPrice")).getD 0
    currentPrice := jNum (jGet j "currentPrice")
    lastUpdated := jNum (jGet j "lastUpdated")
    sourceUrl := jStr (jGet j "sourceUrl")
    sourceTitle := jStr (jGet j "sourceTitle")
    isCompleted :=
      match jGet j "isCompleted" with
      | some (Json.bool b) => some b
      | _ => none
    errorMessage := jStr (jGet j "errorMessage") }

/-- `handleImportFile` (App lines 86-116) after file reading: `parsed` is
the outcome of `JSON.parse` (`none` = parse threw).  Returns the new
tracker list and whether the import succeeded (success alert vs error
alert); every failure path leaves the list unchanged. -/
def handleImport (parsed : Option Json) (stocks : List StockTracker) :
    List StockTracker × Bool :=
  match parsed with
  | none => (stocks, false)
  | some (Json.arr items) =>
    match importCheckAll items with
    | some true => (items.map decodeTracker, true)
    | _ => (stocks, false)
  | some _ => (stocks, false)

/-- The tracker-list invariant of the spec: a set `lastUpdated` implies a
known `currentPrice` or a recorded `errorMessage`. -/
def invTracker (s : StockTracker) : Prop :=
  s.lastUpdated ≠ none → (s.currentPrice ≠ none ∨ s.errorMessage ≠ none)

instance : DecidablePred invTracker := fun s => by
  unfold invTracker; infer_instance

/-- The invariant over a whole tracker list. -/
def invList (l : List StockTracker) : Prop :=
  ∀ s ∈ l, invTracker s

/-! ### Price ingestion service (`services/gemini`) -/

/-- The characters replaced by `escapeRegExp` (gemini lines 128-130),
i.e. the class `[.*+?^$\x7b\x7d()|[\]\\]`. -/
def regexSpecials : List Char :=
  ['.', '*', '+', '?', '^', '$', '\x7b', '\x7d', '(', ')', '|', '[', ']', '\\']

/-- `escapeRegExp` on the character list: every special character gets a
preceding backslash. -/
def escapeRegExpList : List Char → List Char
  | [] => []
  | c :: l =>
    if c ∈ regexSpecials then '\\' :: c :: escapeRegExpList l
    else c :: escapeRegExpList l

/-- `escapeRegExp` (gemini lines 128-130). -/
def escapeRegExp (s : String) : String := String.mk (escapeRegExpList s.data)

/-- Reading of a pattern string as a pure literal matcher: a backslash
escapes the next character; an unescaped pattern-special character means
the pattern is not a plain literal (the `RegExp` constructor would either
reject it or give it structural meaning), yielding `none`. -/
def parseRegexLiteral : List Char → Option (List Char)
  | [] => some []
  | c :: l =>
    if c = '\\' then
      match l with
      | [] => none
      | d :: l2 => (parseRegexLiteral l2).map (fun r => d :: r)
    else if c ∈ regexSpecials then none
    else (parseRegexLiteral l).map (fun r => c :: r)

/-- Whitespace class `\s` (common members). -/
def isWsChar (c : Char) : Bool :=
  c = ' ' || c = '\t' || c = '\n' || c = '\r' || c = '\x0b' || c = '\x0c'

/-- Greedy `\s*`. -/
def dropWsL (l : List Char) : List Char := l.dropWhile isWsChar

/-- Case-insensitive literal match (the fallback regexes carry the `i`
flag); returns the remaining text on success. -/
def matchLitCI : List Char → List Char → Option (List Char)
  | [], t => some t
  | _ :: _, [] => none
  | p :: ps, c :: cs =>
    if p.toLower = c.toLower then matchLitCI ps cs else none

/-- The character class `[0-9.]`. -/
def isDigitDot (c : Char) : Bool := c.isDigit || c = '.'

/-- Digit-run value. -/
def digitsToNat (l : List Char) : ℕ :=
  l.foldl (fun n c => 10 * n + (c.toNat - Char.toNat '0')) 0

/-- JS `parseFloat` restricted to `[0-9.]+` captures: integer part,
optional dot, fractional part; `none` models `NaN` (a capture made of
dots only). -/
def parseFloatQ (l : List Char) : Option ℚ :=
  let intPart := l.takeWhile Char.isDigit
  let rest := l.dropWhile Char.isDigit
  match rest with
  | '.' :: rest2 =>
    let fracPart := rest2.takeWhile Char.isDigit
    if intPart.isEmpty && fracPart.isEmpty then none
    else
      some ((digitsToNat intPart : ℚ) +
        (digitsToNat fracPart : ℚ) / (10 : ℚ) ^ fracPart.length)
  | _ => if intPart.isEmpty then none else some (digitsToNat intPart : ℚ)

/-- The literal `"price"` key of the fallback price pattern. -/
def priceKeyPat : List Char := "\"price\"".data

/-- The literal `"name"` key of the fallback name pattern. -/
def nameKeyPat : List Char := "\"name\"".data

/-- Tail of the price pattern after the `"price"` key:
`\s*:\s*([0-9.]+)`, capture greedy and non-empty. -/
def matchPriceTail (l : List Char) : Option (List Char) :=
  match dropWsL l with
  | ':' :: l2 =>
    let cap := (dropWsL l2).takeWhile isDigitDot
    if cap.isEmpty then none else some cap
  | _ => none

/-- All successful `"price"\s*:\s*([0-9.]+)` captures inside a region, in
positional order.  The region is the brace-free span after `\x7b`, so the
greedy backtracking of `[^\x7d]*` selects the last of these. -/
def priceCaptures : List Char → List (List Char)
  | [] => []
  | c :: cs =>
    (match matchLitCI priceKeyPat (c :: cs) with
     | some rest =>
       match matchPriceTail rest with
       | some cap => [cap]
       | none => []
     | none => []) ++ priceCaptures cs

/-- Tail of the name pattern after the `"name"` key:
`\s*:\s*"([^"]+)"`, capture greedy, non-empty, closing quote required. -/
def matchNameTail (l : List Char) : Option (List Char) :=
  match dropWsL l with
  | ':' :: l2 =>
    match dropWsL l2 with
    | '"' :: l3 =>
      let cap := l3.takeWhile (fun c => c ≠ '"')
      match l3.dropWhile (fun c => c ≠ '"') with
      | [] => none
      | _ :: _ => if cap.isEmpty then none else some cap
    | _ => none
  | _ => none

/-- All successful name captures whose `"name"` key starts within the
first `allowed` characters (the brace-free region consumed by
`[^\x7d]*`); the capture itself may extend past the region. -/
def nameCaptures : List Char → ℕ → List (List Char)
  | _, 0 => []
  | [], _ => []
  | c :: cs, Nat.succ m =>
    (match matchLitCI nameKeyPat (c :: cs) with
     | some rest =>
       match matchNameTail rest with
       | some cap => [cap]
       | none => []
     | none => []) ++ nameCaptures cs m

/-- Anchor `"SYM"\s*:\s*\x7b` of both fallback patterns, matched at the
current position; the requested symbol is embedded escaped, and the
escaped pattern denotes the literal symbol (see
`parseRegexLiteral_escapeRegExpList`), so the anchor compares the literal
symbol.  Returns the text after the opening brace. -/
def symAnchorAt (sym text : List Char) : Option (List Char) :=
  match matchLitCI ('"' :: (sym ++ ['"'])) text with
  | none => none
  | some r1 =>
    match dropWsL r1 with
    | ':' :: r2 =>
      match dropWsL r2 with
      | '\x7b' :: r3 => some r3
      | _ => none
    | _ => none

/-- The price pattern matched at the current position: anchored symbol
key, then `[^\x7d]*"price"\s*:\s*([0-9.]+)[^\x7d]*\x7d`; the closing
brace must exist and greedy backtracking picks the last price key in the
brace-free region. -/
def priceMatchAt (sym text : List Char) : Option (List Char) :=
  match symAnchorAt sym text with
  | none => none
  | some r3 =>
    let region := r3.takeWhile (fun c => c ≠ '\x7d')
    match r3.dropWhile (fun c => c ≠ '\x7d') with
    | [] => none
    | _ :: _ => (priceCaptures region).getLast?

/-- The name pattern matched at the current position: anchored symbol
key, then `[^\x7d]*"name"\s*:\s*"([^"]+)"`; the name key must start in
the brace-free region, and greedy backtracking picks the last one. -/
def nameMatchAt (sym text : List Char) : Option (List Char) :=
  match symAnchorAt sym text with
  | none => none
  | some r3 =>
    (nameCaptures r3 (r3.takeWhile (fun c => c ≠ '\x7d')).length).getLast?

/-- Global (unanchored) search: first position whose anchored match
succeeds, scanning left to right as `String.prototype.match` does. -/
def scanFirst (f : List Char → Option (List Char)) :
    List Char → Option (List Char)
  | [] => none
  | c :: cs =>
    match f (c :: cs) with
    | some cap => some cap
    | none => scanFirst f cs

/-- One entry of the `data` record as produced by the fallback for a
single symbol (gemini lines 176-194); `price` is an `Option` because
`parseFloat` can produce `NaN` (modelled `none`). -/
structure JEntry where
  price : Option ℚ
  name : Option String
deriving Repr, DecidableEq

/-- Fallback extraction for one symbol: price capture via the price
regex, display name via the name regex defaulting to the symbol itself;
no price match means no entry is recorded for the symbol. -/
def fallbackEntry (sym : List Char) (text : List Char) : Option JEntry :=
  match scanFirst (priceMatchAt sym) text with
  | none => none
  | some cap =>
    some
      { price := parseFloatQ cap
        name := some
          (match scanFirst (nameMatchAt sym) text with
           | some ncap => String.mk ncap
           | none => String.mk sym) }

/-- The whole fallback loop (gemini lines 176-194): each requested symbol
is processed independently, assigning `data[sym]` exactly when its own
extraction succeeds. -/
def fallbackData (text : List Char) (symbols : List String) :
    String → Option JEntry :=
  symbols.foldl
    (fun acc sym =>
      match fallbackEntry sym.data text with
      | some e => fun k => if k = sym then some e else acc k
      | none => acc)
    (fun _ => none)

/-- A web reference inside a grounding chunk. -/
structure WebRef where
  uri : Option String
  title : Option String

/-- A grounding chunk of the remote response. -/
structure Chunk where
  web : Option WebRef

/-- The abstract remote world a fetch round observes: the response text,
its grounding chunks, and an oracle for `JSON.parse` on the cleaned text
(`none` = parse throws, triggering the fallback).  The environment
credential models `process.env.API_KEY`, read once at module
initialization to build the client. -/
structure GeminiEnv where
  envApiKey : String
  text : String
  jsonParse : String → Option (String → Option JEntry)
  chunks : List Chunk

/-- Literal prefix test on character lists. -/
def listStartsWith : List Char → List Char → Bool
  | [], _ => true
  | _ :: _, [] => false
  | p :: ps, c :: cs => p = c && listStartsWith ps cs

/-- `text.replace(pat-as-global-literal-regex, "")`: remove every
non-overlapping occurrence of `pat`, scanning left to right. -/
def removeAllL (pat : List Char) (text : List Char) : List Char :=
  match text with
  | [] => []
  | c :: cs =>
    if pat ≠ [] && listStartsWith pat (c :: cs) then
      removeAllL pat (List.drop (pat.length - 1) cs)
    else c :: removeAllL pat cs
termination_by text.length
decreasing_by
  · simp only [List.length_drop, List.length_cons]; omega
  · simp only [List.length_cons]; omega

/-- `String.prototype.trim` on a character list. -/
def trimL (l : List Char) : List Char :=
  ((l.dropWhile isWsChar).reverse.dropWhile isWsChar).reverse

/-- Markdown fence cleanup (gemini line 168):
strip all occurrences of three backticks followed by `json`, then of
plain three-backtick fences, then trim. -/
def cleanResponseTextL (text : List Char) : List Char :=
  trimL (removeAllL "```".data (removeAllL "```json".data text))

/-- Markdown fence cleanup at the string level. -/
def cleanResponseText (text : String) : String :=
  String.mk (cleanResponseTextL text.data)

/-- Shared batch attribution (gemini lines 199-209): the first chunk with
a truthy `web.uri` supplies url and title for the whole batch. -/
def groundingSource (chunks : List Chunk) : Option String × Option String :=
  match chunks.find? (fun c =>
    match c.web.bind WebRef.uri with
    | some u => u ≠ ""
    | none => false) with
  | some c =>
    match c.web with
    | some w => (w.uri, w.title)
    | none => (none, none)
  | none => (none, none)

/-- `fetchStockPrices` (gemini lines 132-228).  The boolean records
whether a network round-trip was issued: the empty symbol list returns
before any request.  On a response, the cleaned text is parsed strictly;
on parse failure the fallback extraction builds the data record; one
result is emitted per element of `symbols`, with the sentinel price `0`
for unresolved entries and the shared batch attribution. -/
def fetchStockPrices (env : GeminiEnv) (symbols : List String) :
    Bool × List PriceUpdateResult :=
  if symbols.length = 0 then (false, [])
  else
    let cleanText := cleanResponseText env.text
    let data : String → Option JEntry :=
      match env.jsonParse cleanText with
      | some d => d
      | none => fallbackData cleanText.data symbols
    let source := groundingSource env.chunks
    (true, symbols.map (fun sym =>
      { symbol := sym
        price :=
          match (data sym).bind JEntry.price with
          | some p => p
          | none => 0
        companyName := some
          (match (data sym).bind JEntry.name with
           | some n => if n = "" then sym else n
           | none => sym)
        sourceUrl := source.1
        sourceTitle := source.2 }))

/-- The call the reconciliation controller makes (App line 136):
`fetchStockPrices(symbols, apiKey)`.  The callee declares only a
`symbols` parameter, so under JS call semantics the extra credential
argument is discarded before the body runs. -/
def refreshFetchCall (env : GeminiEnv) (symbols : List String)
    (apiKey : String) : Bool × List PriceUpdateResult :=
  fetchStockPrices env symbols

/-! ### Concrete probe values -/

/-- A tracker for symbol `A`, never refreshed. -/
def trackerA1 : StockTracker :=
  { id := "1", symbol := "A", startPrice := 0, targetPrice := 1 }

/-- A second, distinct tracker sharing symbol `A`. -/
def trackerA2 : StockTracker :=
  { id := "2", symbol := "A", startPrice := 0, targetPrice := 1 }

/-- A successful result for symbol `A`. -/
def resultA : PriceUpdateResult := { symbol := "A", price := 1 }

/-- A remote world with an empty response whose strict parse fails. -/
def quietEnv : GeminiEnv :=
  { envApiKey := "", text := "", jsonParse := fun _ => none, chunks := [] }

/-- An imported JSON object that passes the import validation yet has
`lastUpdated` set with neither a price nor an error message. -/
def staleImportJson : Json :=
  Json.obj [("id", Json.str "1"), ("symbol", Json.str "A"),
    ("startPrice", Json.num 1), ("lastUpdated", Json.num 5)]

/-- A tracker whose progress is 10. -/
def progress10 : StockTracker :=
  { id := "p10", symbol := "X", startPrice := 0, targetPrice := 100,
    currentPrice := some 10 }

/-- A tracker with no resolved price. -/
def progressNone : StockTracker :=
  { id := "pn", symbol := "Y", startPrice := 0, targetPrice := 100 }

/-- A tracker whose progress is 90. -/
def progress90 : StockTracker :=
  { id := "p90", symbol := "Z", startPrice := 0, targetPrice := 100,
    currentPrice := some 90 }

/-- A response text containing one recognizable price fragment
`"SYM" ws1 : ws2 \x7b mid1 "price" ws3 : ws4 digits mid2 \x7d` for `sym`,
surrounded by arbitrary prefix and suffix text. -/
def fragText (pre sym ws1 ws2 mid1 ws3 ws4 digits mid2 post : List Char) :
    List Char :=
  pre ++ '"' :: sym ++ '"' :: ws1 ++ ':' :: ws2 ++ '\x7b' :: mid1 ++
    priceKeyPat ++ ws3 ++ ':' :: ws4 ++ digits ++ mid2 ++ '\x7d' :: post

/-! ## Helper lemmas -/

theorem mergeStock_not_mem (symbols : List String)
    (results : List PriceUpdateResult) (now : ℚ) (stock : StockTracker)
    (h : stock.symbol ∉ symbols) :
    mergeStock symbols results now stock = stock := by
  simp [mergeStock, h]

theorem mergeStockBatchFail_not_mem (symbols : List String) (now : ℚ)
    (stock : StockTracker) (h : stock.symbol ∉ symbols) :
    mergeStockBatchFail symbols now stock = stock := by
  simp [mergeStockBatchFail, h]

/-! ## Claims -/

/-- C10: the ingestion call made by the reconciliation controller ignores
the caller-supplied credential: for any two credential values the call
behaves identically, and equals `fetchStockPrices` on the symbols
alone. -/
theorem claim10_credential_independence :
    (∀ (env : GeminiEnv) (symbols : List String) (k1 k2 : String),
      refreshFetchCall env symbols k1 = refreshFetchCall env symbols k2) ∧
    (∀ (env : GeminiEnv) (symbols : List String) (k : String),
      refreshFetchCall env symbols k = fetchStockPrices env symbols) :=
  ⟨fun _ _ _ _ => rfl, fun _ _ _ => rfl⟩

/-- C1: for a tracker whose symbol is in the refreshed set, a found
result with positive price makes the merge write `currentPrice`, set
`lastUpdated` to now, copy both attribution fields, clear `errorMessage`,
and overwrite `companyName` exactly when the result carries a non-empty
name (keeping the previous one otherwise). -/
theorem claim1_merge_success (symbols : List String)
    (results : List PriceUpdateResult) (now : ℚ) (stock : StockTracker)
    (update : PriceUpdateResult) (hmem : stock.symbol ∈ symbols)
    (hfind : results.find? (fun r => r.symbol == stock.symbol) = some update)
    (hpos : update.price > 0) :
    mergeStock symbols results now stock =
      { stock with
          currentPrice := some update.price
          companyName := jsOrString update.companyName stock.companyName
          lastUpdated := some now
          sourceUrl := update.sourceUrl
          sourceTitle := update.sourceTitle
          errorMessage := none } ∧
    ((update.companyName = none ∨ update.companyName = some "") →
      (mergeStock symbols results now stock).companyName = stock.companyName) ∧
    (∀ n, update.companyName = some n → n ≠ "" →
      (mergeStock symbols results now stock).companyName = some n) := by
  have hm : mergeStock symbols results now stock =
      { stock with
          currentPrice := some update.price
          companyName := jsOrString update.companyName stock.companyName
          lastUpdated := some now
          sourceUrl := update.sourceUrl
          sourceTitle := update.sourceTitle
          errorMessage := none } := by
    simp [mergeStock, hmem, hfind, hpos]
  refine ⟨hm, ?_, ?_⟩
  · rintro (h | h) <;> simp [hm, jsOrString, h]
  · intro n hn hne
    simp [hm, jsOrString, hn, hne]

/-- Witness for C1 at a concrete tracker, result and time. -/
theorem claim1_merge_success_witness :
    mergeStock ["A"] [resultA] 5 trackerA1 =
      { trackerA1 with
          currentPrice := some 1
          lastUpdated := some 5
          errorMessage := none } := by
  have h := claim1_merge_success ["A"] [resultA] 5 trackerA1 resultA
    (by decide) (by decide) (by decide)
  rw [h.1]; decide

/-- C2: for a tracker whose symbol was in the refreshed set, a missing
result or one carrying the sentinel price 0 makes the merge keep
`currentPrice`, set `lastUpdated` to now and record the generic
per-symbol error message; on batch-level failure every requested tracker
keeps `currentPrice` and gets the generic batch error message. -/
theorem claim2_merge_failure :
    (∀ (symbols : List String) (results : List PriceUpdateResult) (now : ℚ)
        (stock : StockTracker),
      stock.symbol ∈ symbols →
      (results.find? (fun r => r.symbol == stock.symbol) = none ∨
        ∃ u, results.find? (fun r => r.symbol == stock.symbol) = some u ∧
          u.price = 0) →
      mergeStock symbols results now stock =
        { stock with
            lastUpdated := some now
            errorMessage := some "Symbol not found or data unavailable" }) ∧
    (∀ (symbols : List String) (now : ℚ) (stock : StockTracker),
      stock.symbol ∈ symbols →
      mergeStockBatchFail symbols now stock =
        { stock with
            lastUpdated := some now
            errorMessage := some "Update failed" }) := by
  constructor
  · rintro symbols results now stock hmem (hfind | ⟨u, hfind, hu⟩)
    · simp [mergeStock, hmem, hfind]
    · have : ¬ u.price > 0 := by rw [hu]; exact lt_irrefl 0
      simp [mergeStock, hmem, hfind, this]
  · intro symbols now stock hmem
    simp [mergeStockBatchFail, hmem]

/-- Witness for C2: both failure shapes at concrete inputs. -/
theorem claim2_merge_failure_witness :
    mergeStock ["A"] [] 5 trackerA1 =
      { trackerA1 with
          lastUpdated := some 5
          errorMessage := some "Symbol not found or data unavailable" } ∧
    mergeStockBatchFail ["A"] 5 trackerA1 =
      { trackerA1 with
          lastUpdated := some 5
          errorMessage := some "Update failed" } :=
  ⟨claim2_merge_failure.1 ["A"] [] 5 trackerA1 (by decide) (Or.inl rfl),
   claim2_merge_failure.2 ["A"] 5 trackerA1 (by decide)⟩

/-- C3 counterexample: the merge is keyed by symbol, not by tracker
identity.  The tracker `trackerA2` is outside the target subset
`[trackerA1]`, yet it shares symbol `A` with the subset and is modified
by the merge, so "every tracker outside that subset is left completely
unchanged" fails as stated. -/
theorem claim3_frame_cex :
    trackerA2 ∉ [trackerA1] ∧
    refreshMergeOk (refreshSymbols [trackerA1]) [resultA] 5
        [trackerA1, trackerA2] ≠ [trackerA1, trackerA2] ∧
    (refreshMergeOk (refreshSymbols [trackerA1]) [resultA] 5
        [trackerA1, trackerA2]).get ⟨1, by decide⟩ ≠ trackerA2 := by
  decide

/-- C3 amended: every tracker whose symbol is outside the refreshed
symbol set is left completely unchanged by the merge, in the success
case, the per-symbol-unresolved case (both covered by `refreshMergeOk`,
whose per-tracker branch is guarded by symbol membership alone) and the
batch-failure case. -/
theorem claim3_frame_by_symbol (symbols : List String)
    (results : List PriceUpdateResult) (now : ℚ)
    (stocks : List StockTracker) (i : ℕ) (hi : i < stocks.length)
    (hs : (stocks.get ⟨i, hi⟩).symbol ∉ symbols) :
    (refreshMergeOk symbols results now stocks).get
        ⟨i, by simpa [refreshMergeOk] using hi⟩ = stocks.get ⟨i, hi⟩ ∧
    (refreshMergeFail symbols now stocks).get
        ⟨i, by simpa [refreshMergeFail] using hi⟩ = stocks.get ⟨i, hi⟩ := by
  constructor
  · rw [List.get_eq_getElem]
    simp only [refreshMergeOk, List.getElem_map]
    exact mergeStock_not_mem _ _ _ _ hs
  · rw [List.get_eq_getElem]
    simp only [refreshMergeFail, List.getElem_map]
    exact mergeStockBatchFail_not_mem _ _ _ hs

/-- Witness for the amended C3 at a concrete list and index. -/
theorem claim3_frame_by_symbol_witness :
    (refreshMergeOk ["B"] [resultA] 5 [trackerA1]).get ⟨0, by decide⟩ =
        trackerA1 ∧
    (refreshMergeFail ["B"] 5 [trackerA1]).get ⟨0, by decide⟩ = trackerA1 :=
  claim3_frame_by_symbol ["B"] [resultA] 5 [trackerA1] 0 (by decide)
    (by decide)

/-- C7: a tracker qualifies for automatic refresh iff it is not completed
and its `lastUpdated` is absent or more than 3600000 ms in the past; at
the boundary, a non-completed tracker last updated 3600001 ms ago
qualifies, one last updated 3599999 ms ago does not, and one never
updated always qualifies. -/
theorem claim7_staleness :
    (∀ (now : ℚ) (stocks : List StockTracker) (s : StockTracker),
      s ∈ autoRefreshTargets now stocks ↔
        s ∈ stocks ∧ jsCompleted s = false ∧
          (s.lastUpdated = none ∨
            ∃ t, s.lastUpdated = some t ∧ now - t > 3600000)) ∧
    ({ trackerA1 with lastUpdated := some 6399999 } ∈
        autoRefreshTargets 10000000
          [{ trackerA1 with lastUpdated := some 6399999 }]) ∧
    ({ trackerA1 with lastUpdated := some 6400001 } ∉
        autoRefreshTargets 10000000
          [{ trackerA1 with lastUpdated := some 6400001 }]) ∧
    (trackerA1 ∈ autoRefreshTargets 10000000 [trackerA1]) := by
  refine ⟨?_, ?_, ?_, ?_⟩
  · intro now stocks s
    simp only [autoRefreshTargets, List.mem_filter, Bool.not_eq_true',
      and_assoc]
    apply and_congr_right; intro _
    apply and_congr_right; intro _
    cases hl : s.lastUpdated with
    | none => simp [isStale, hl]
    | some t => simp [isStale, hl]
  · simp only [autoRefreshTargets, List.mem_filter, List.mem_singleton]
    refine ⟨⟨trivial, by decide⟩, ?_⟩
    simp only [isStale]
    norm_num
  · simp only [autoRefreshTargets, List.mem_filter, List.mem_singleton]
    rintro ⟨-, hstale⟩
    simp only [isStale] at hstale
    norm_num at hstale
  · simp only [autoRefreshTargets, List.mem_filter, List.mem_singleton]
    exact ⟨⟨trivial, by decide⟩, by simp [isStale, trackerA1]⟩

theorem getProgress_p10 : getProgress progress10 = 10 := by
  norm_num [getProgress, progress10]

theorem getProgress_pNone : getProgress progressNone = -9999 := by
  norm_num [getProgress, progressNone]

theorem getProgress_p90 : getProgress progress90 = 90 := by
  norm_num [getProgress, progress90]

/-- C8: progress is the relative position of the current price in the
start/target range times 100, an unresolved price is assigned the fixed
sentinel progress −9999, a zero-width range yields progress 0, and the
three trackers with progress 10 / no price / 90 sort descending to
[90, 10, no-price]. -/
theorem claim8_progress_sort :
    (∀ (s : StockTracker) (cp : ℚ), s.currentPrice = some cp →
      s.targetPrice ≠ s.startPrice →
      getProgress s =
        (cp - s.startPrice) / (s.targetPrice - s.startPrice) * 100) ∧
    (∀ s : StockTracker, s.currentPrice = none → getProgress s = -9999) ∧
    (∀ (s : StockTracker) (cp : ℚ), s.currentPrice = some cp →
      s.targetPrice = s.startPrice → getProgress s = 0) ∧
    getSortedStocks SortOption.PROGRESS_DESC
        [progress10, progressNone, progress90] =
      [progress90, progress10, progressNone] := by
  refine ⟨?_, ?_, ?_, ?_⟩
  · intro s cp hcp hne
    have h0 : s.targetPrice - s.startPrice ≠ 0 := sub_ne_zero.mpr hne
    simp [getProgress, hcp, h0]
  · intro s h
    simp [getProgress, h]
  · intro s cp hcp he
    have h0 : s.targetPrice - s.startPrice = 0 := sub_eq_zero.mpr he
    simp [getProgress, hcp, h0]
  · simp only [getSortedStocks, stableSortBy, List.foldr, sortInsert,
      getProgress_p10, getProgress_pNone, getProgress_p90]
    norm_num

/-- Witness for C8 at concrete trackers. -/
theorem claim8_progress_sort_witness :
    getProgress progress10 = 10 ∧ getProgress progressNone = -9999 ∧
    getProgress { progress10 with targetPrice := 0 } = 0 := by
  refine ⟨?_, claim8_progress_sort.2.1 progressNone rfl,
    claim8_progress_sort.2.2.1 { progress10 with targetPrice := 0 } 10 rfl
      (by decide)⟩
  have h := claim8_progress_sort.1 progress10 10 rfl (by norm_num [progress10])
  rw [h]; norm_num [progress10]

theorem results_filter_length (g : String → PriceUpdateResult)
    (hg : ∀ s, (g s).symbol = s) (L : List String) (sym : String) :
    ((L.map g).filter (fun r => r.symbol == sym)).length =
      (L.filter (fun s => s == sym)).length := by
  induction L with
  | nil => rfl
  | cons a rest ih =>
    simp only [List.map_cons, List.filter_cons, hg]
    cases h : (a == sym) <;> simp [h, ih]

theorem nodup_filter_beq_length (L : List String) (sym : String)
    (hnd : L.Nodup) (hmem : sym ∈ L) :
    (L.filter (fun s => s == sym)).length = 1 := by
  have h := List.count_eq_one_of_mem hnd hmem
  simpa [List.count, List.countP_eq_length_filter] using h

/-- C4 counterexample: `fetchStockPrices` maps over the raw input list,
so a duplicated input symbol yields two results for one unique symbol;
"exactly one result per unique input symbol" fails for inputs with
duplicates (the reconciliation caller avoids this only by deduplicating
first). -/
theorem claim4_one_result_cex :
    jsSetDedup ["AAPL", "AAPL"] = ["AAPL"] ∧
    ((fetchStockPrices quietEnv ["AAPL", "AAPL"]).2.filter
        (fun r => r.symbol == "AAPL")).length ≠ 1 := by
  decide

/-- C4 amended: `fetchStockPrices` returns exactly one result per input
list element, hence exactly one per unique symbol whenever the input list
is duplicate-free; every result's symbol is drawn from the input, and the
empty input returns the empty sequence with no network call issued. -/
theorem claim4_results_shape (env : GeminiEnv) (symbols : List String)
    (hnd : symbols.Nodup) :
    (fetchStockPrices env symbols).2.length = symbols.length ∧
    (∀ sym ∈ symbols,
      ((fetchStockPrices env symbols).2.filter
          (fun r => r.symbol == sym)).length = 1) ∧
    (∀ r ∈ (fetchStockPrices env symbols).2, r.symbol ∈ symbols) ∧
    (symbols = [] → fetchStockPrices env symbols = (false, [])) := by
  by_cases hemp : symbols.length = 0
  · have hnil : symbols = [] := List.length_eq_zero.mp hemp
    subst hnil
    exact ⟨rfl, by simp, by simp [fetchStockPrices], fun _ => rfl⟩
  · simp only [fetchStockPrices, if_neg hemp]
    refine ⟨by simp, ?_, ?_, ?_⟩
    · intro sym hsym
      rw [results_filter_length _ (fun _ => rfl)]
      exact nodup_filter_beq_length symbols sym hnd hsym
    · intro r hr
      rcases List.mem_map.mp hr with ⟨s, hs, hrs⟩
      rw [← hrs]
      exact hs
    · intro h
      exact absurd (by simp [h]) hemp

/-- Witness for the amended C4 at a concrete environment. -/
theorem claim4_results_shape_witness :
    ((fetchStockPrices quietEnv ["AAPL"]).2.filter
        (fun r => r.symbol == "AAPL")).length = 1 ∧
    fetchStockPrices quietEnv [] = (false, []) :=
  ⟨(claim4_results_shape quietEnv ["AAPL"] (by decide)).2.1 "AAPL"
      (by decide),
   (claim4_results_shape quietEnv [] (by decide)).2.2.2 rfl⟩

theorem invTracker_mergeStock (symbols : List String)
    (results : List PriceUpdateResult) (now : ℚ) (s : StockTracker)
    (h : invTracker s) :
    invTracker (mergeStock symbols results now s) := by
  unfold mergeStock
  by_cases hmem : s.symbol ∈ symbols
  · simp only [if_pos hmem]
    cases hfind : results.find? (fun r => r.symbol == s.symbol) with
    | none => intro _; right; simp
    | some u =>
      by_cases hp : u.price > 0
      · simp only [if_pos hp]; intro _; left; simp
      · simp only [if_neg hp]; intro _; right; simp
  · simpa [if_neg hmem] using h

theorem invTracker_mergeStockBatchFail (symbols : List String) (now : ℚ)
    (s : StockTracker) (h : invTracker s) :
    invTracker (mergeStockBatchFail symbols now s) := by
  unfold mergeStockBatchFail
  by_cases hmem : s.symbol ∈ symbols
  · simp only [if_pos hmem]; intro _; right; simp
  · simpa [if_neg hmem] using h

theorem invTracker_set_isCompleted (s : StockTracker) (x : Option Bool)
    (h : invTracker s) : invTracker { s with isCompleted := x } := by
  unfold invTracker at *
  simpa using h

/-- C6 counterexample: the import path accepts a file whose objects pass
the id/symbol/startPrice validation yet carry `lastUpdated` with neither
a price nor an error message.  Starting from an invariant-satisfying
(empty) list, a successful import produces a tracker violating the
invariant, so the invariant is not preserved by every mutating operation
as claimed. -/
theorem claim6_invariant_cex :
    invList [] ∧
    handleImport (some (Json.arr [staleImportJson])) [] =
      ([decodeTracker staleImportJson], true) ∧
    ¬ invTracker (decodeTracker staleImportJson) := by
  refine ⟨?_, rfl, by decide⟩
  intro s hs
  exact absurd hs (List.not_mem_nil s)

/-- C6 amended: the invariant — `lastUpdated` set implies a price or an
error message — is preserved by tracker creation, by both reconciliation
merges, by the completion toggle and by deletion; the import path
preserves it only under the extra assumption that the imported data
itself satisfies it (on any import failure the list, and hence the
invariant, is unchanged). -/
theorem claim6_invariant_preservation (l : List StockTracker)
    (hl : invList l) :
    (∀ (id sym : String) (sp tp : ℚ),
      invList (handleAddStock (newTracker id sym sp tp) l)) ∧
    (∀ (symbols : List String) (results : List PriceUpdateResult) (now : ℚ),
      invList (refreshMergeOk symbols results now l)) ∧
    (∀ (symbols : List String) (now : ℚ),
      invList (refreshMergeFail symbols now l)) ∧
    (∀ id, invList (handleToggleComplete id l)) ∧
    (∀ id, invList (handleDeleteStock id l)) ∧
    (∀ parsed, (handleImport parsed l).2 = false →
      (handleImport parsed l).1 = l) ∧
    (∀ items, invList (items.map decodeTracker) →
      invList (handleImport (some (Json.arr items)) l).1) := by
  refine ⟨?_, ?_, ?_, ?_, ?_, ?_, ?_⟩
  · intro id sym sp tp s hs
    rcases List.mem_cons.mp hs with h | h
    · subst h; simp [invTracker, newTracker]
    · exact hl s h
  · intro symbols results now s hs
    rcases List.mem_map.mp hs with ⟨s0, hs0, rfl⟩
    exact invTracker_mergeStock _ _ _ _ (hl s0 hs0)
  · intro symbols now s hs
    rcases List.mem_map.mp hs with ⟨s0, hs0, rfl⟩
    exact invTracker_mergeStockBatchFail _ _ _ (hl s0 hs0)
  · intro id s hs
    rcases List.mem_map.mp hs with ⟨s0, hs0, rfl⟩
    by_cases hid : s0.id = id
    · simpa [hid] using invTracker_set_isCompleted s0 _ (hl s0 hs0)
    · simpa [hid] using hl s0 hs0
  · intro id s hs
    exact hl s (List.mem_filter.mp hs).1
  · intro parsed h
    cases parsed with
    | none => rfl
    | some j =>
      cases j with
      | arr items =>
        cases hc : importCheckAll items with
        | none => simp [handleImport, hc]
        | some b =>
          cases b with
          | false => simp [handleImport, hc]
          | true => simp [handleImport, hc] at h
      | null => rfl
      | bool b => rfl
      | num q => rfl
      | str s => rfl
      | obj fields => rfl
  · intro items hinv
    cases hc : importCheckAll items with
    | none => simpa [handleImport, hc] using hl
    | some b =>
      cases b with
      | false => simpa [handleImport, hc] using hl
      | true => simpa [handleImport, hc] using hinv

/-- Witness for the amended C6 starting from the empty list. -/
theorem claim6_invariant_preservation_witness :
    invList (handleAddStock (newTracker "i" "a" 0 1) []) ∧
    invList (refreshMergeOk ["A"] [resultA] 5 []) ∧
    (handleImport none []).1 = [] :=
  ⟨(claim6_invariant_preservation []
      (fun s hs => absurd hs (List.not_mem_nil s))).1 "i" "a" 0 1,
   (claim6_invariant_preservation []
      (fun s hs => absurd hs (List.not_mem_nil s))).2.1 ["A"] [resultA] 5,
   (claim6_invariant_preservation []
      (fun s hs => absurd hs (List.not_mem_nil s))).2.2.2.2.2.1 none rfl⟩

theorem importItemCheck_eq_some_true (e : Json) :
    importItemCheck e = some true ↔
      ((∃ v, jsGetProp e "id" = some (some v) ∧ jsTruthy v = true) ∧
       (∃ v, jsGetProp e "symbol" = some (some v) ∧ jsTruthy v = true) ∧
       (∃ v, jsGetProp e "startPrice" = some (some v))) := by
  unfold importItemCheck
  cases h1 : jsGetProp e "id" with
  | none => simp [h1]
  | some fid =>
    cases fid with
    | none => simp [h1, jsTruthyOpt]
    | some v1 =>
      cases ht1 : jsTruthy v1 with
      | false => simp [h1, jsTruthyOpt, ht1]
      | true =>
        cases h2 : jsGetProp e "symbol" with
        | none => simp [h1, h2, jsTruthyOpt, ht1]
        | some fsym =>
          cases fsym with
          | none => simp [h1, h2, jsTruthyOpt, ht1]
          | some v2 =>
            cases ht2 : jsTruthy v2 with
            | false => simp [h1, h2, jsTruthyOpt, ht1, ht2]
            | true =>
              cases h3 : jsGetProp e "startPrice" with
              | none => simp [h1, h2, h3, jsTruthyOpt, ht1, ht2]
              | some fsp =>
                cases fsp with
                | none => simp [h1, h2, h3, jsTruthyOpt, ht1, ht2]
                | some v3 => simp [h1, h2, h3, jsTruthyOpt, ht1, ht2]

theorem importCheckAll_eq_some_true (items : List Json) :
    importCheckAll items = some true ↔
      ∀ e ∈ items, importItemCheck e = some true := by
  induction items with
  | nil => simp [importCheckAll]
  | cons a rest ih =>
    unfold importCheckAll
    cases h : importItemCheck a with
    | none => simp [h]
    | some b =>
      cases b with
      | false => simp [h]
      | true => simp [h, ih]

/-- C9: the import wholesale-replaces the tracker list exactly when the
parsed value is an array in which every element carries a truthy `id`, a
truthy `symbol` and a defined `startPrice`; every parse or validation
failure (including a non-array top level) leaves the existing list
unchanged and signals failure. -/
theorem claim9_import_validation (parsed : Option Json)
    (l : List StockTracker) :
    (∀ items, parsed = some (Json.arr items) →
      (handleImport parsed l = (items.map decodeTracker, true) ↔
        ∀ e ∈ items,
          (∃ v, jsGetProp e "id" = some (some v) ∧ jsTruthy v = true) ∧
          (∃ v, jsGetProp e "symbol" = some (some v) ∧ jsTruthy v = true) ∧
          (∃ v, jsGetProp e "startPrice" = some (some v)))) ∧
    ((∀ items, parsed ≠ some (Json.arr items)) →
      handleImport parsed l = (l, false)) ∧
    ((handleImport parsed l).2 = false → (handleImport parsed l).1 = l) := by
  refine ⟨?_, ?_, ?_⟩
  · intro items hp
    subst hp
    constructor
    · intro h
      cases hc : importCheckAll items with
      | none => simp [handleImport, hc] at h
      | some b =>
        cases b with
        | false => simp [handleImport, hc] at h
        | true =>
          intro e he
          exact (importItemCheck_eq_some_true e).mp
            ((importCheckAll_eq_some_true items).mp hc e he)
    · intro hok
      have hc : importCheckAll items = some true :=
        (importCheckAll_eq_some_true items).mpr
          (fun e he => (importItemCheck_eq_some_true e).mpr (hok e he))
      simp [handleImport, hc]
  · intro h
    cases parsed with
    | none => rfl
    | some j =>
      cases j with
      | arr items => exact absurd rfl (h items)
      | null => rfl
      | bool b => rfl
      | num q => rfl
      | str s => rfl
      | obj f => rfl
  · intro h
    cases parsed with
    | none => rfl
    | some j =>
      cases j with
      | arr items =>
        cases hc : importCheckAll items with
        | none => simp [handleImport, hc]
        | some b =>
          cases b with
          | false => simp [handleImport, hc]
          | true => simp [handleImport, hc] at h
      | null => rfl
      | bool b => rfl
      | num q => rfl
      | str s => rfl
      | obj f => rfl

/-- Witness for C9: a validated import replaces the list; a non-array
file is rejected and leaves the list unchanged. -/
theorem claim9_import_validation_witness :
    handleImport (some (Json.arr [staleImportJson])) [] =
      ([decodeTracker staleImportJson], true) ∧
    handleImport (some (Json.str "nope")) [trackerA1] =
      ([trackerA1], false) := by
  constructor
  · refine ((claim9_import_validation _ _).1 [staleImportJson] rfl).mpr ?_
    intro e he
    rw [List.mem_singleton.mp he]
    exact ⟨⟨Json.str "1", rfl, rfl⟩, ⟨Json.str "A", rfl, rfl⟩,
      ⟨Json.num 1, rfl⟩⟩
  · exact (claim9_import_validation _ _).2.1
      (fun items h => Json.noConfusion (Option.some.inj h))

theorem parseRegexLiteral_cons_plain (c : Char) (l : List Char)
    (hb : c ≠ '\\') (hc : c ∉ regexSpecials) :
    parseRegexLiteral (c :: l) = (parseRegexLiteral l).map (fun r => c :: r) := by
  cases l with
  | nil => simp [parseRegexLiteral, hb, hc]
  | cons d l2 => simp [parseRegexLiteral, hb, hc]

theorem parseRegexLiteral_escape (cs : List Char) :
    parseRegexLiteral (escapeRegExpList cs) = some cs := by
  induction cs with
  | nil => rfl
  | cons c cs ih =>
    by_cases hc : c ∈ regexSpecials
    · simp only [escapeRegExpList, if_pos hc]
      simp [parseRegexLiteral, ih]
    · have hb : c ≠ '\\' :=
        fun h => hc (h ▸ (by decide : ('\\' : Char) ∈ regexSpecials))
      simp only [escapeRegExpList, if_neg hc]
      rw [parseRegexLiteral_cons_plain c _ hb hc, ih]
      rfl

theorem matchLitCI_self (p t : List Char) : matchLitCI p (p ++ t) = some t := by
  induction p with
  | nil => rfl
  | cons c p ih => simp [matchLitCI, ih]

theorem matchLitCI_fail_head (p c : Char) (ps cs : List Char)
    (h : p.toLower ≠ c.toLower) : matchLitCI (p :: ps) (c :: cs) = none := by
  simp [matchLitCI, h]

theorem dropWhile_append_of_all (p : Char → Bool) (xs ys : List Char)
    (h : ∀ c ∈ xs, p c = true) :
    List.dropWhile p (xs ++ ys) = List.dropWhile p ys := by
  induction xs with
  | nil => rfl
  | cons c xs ih =>
    simp only [List.cons_append, List.dropWhile_cons, h c (by simp),
      if_true]
    exact ih (fun d hd => h d (by simp [hd]))

theorem takeWhile_append_of_all (p : Char → Bool) (xs ys : List Char)
    (h : ∀ c ∈ xs, p c = true) :
    List.takeWhile p (xs ++ ys) = xs ++ List.takeWhile p ys := by
  induction xs with
  | nil => rfl
  | cons c xs ih =>
    simp only [List.cons_append, List.takeWhile_cons, h c (by simp),
      if_true]
    rw [ih (fun d hd => h d (by simp [hd]))]

theorem dropWsL_append_of_all (xs ys : List Char)
    (h : ∀ c ∈ xs, isWsChar c = true) :
    dropWsL (xs ++ ys) = dropWsL ys :=
  dropWhile_append_of_all isWsChar xs ys h

theorem dropWsL_cons_of_neg (c : Char) (l : List Char)
    (h : isWsChar c = false) : dropWsL (c :: l) = c :: l := by
  simp [dropWsL, List.dropWhile_cons, h]

theorem priceCaptures_cons_noquote (c : Char) (cs : List Char)
    (h : c.toLower ≠ '"') : priceCaptures (c :: cs) = priceCaptures cs := by
  have hm : matchLitCI priceKeyPat (c :: cs) = none := by
    rw [show priceKeyPat = '"' :: ['p', 'r', 'i', 'c', 'e', '"'] from rfl]
    exact matchLitCI_fail_head _ _ _ _ (by
      rw [show ('"' : Char).toLower = '"' from by decide]
      exact fun he => h he.symm)
  simp [priceCaptures, hm]

theorem priceCaptures_skip (xs ys : List Char)
    (h : ∀ c ∈ xs, c.toLower ≠ '"') :
    priceCaptures (xs ++ ys) = priceCaptures ys := by
  induction xs with
  | nil => rfl
  | cons c xs ih =>
    rw [List.cons_append, priceCaptures_cons_noquote c _ (h c (by simp))]
    exact ih (fun d hd => h d (by simp [hd]))

theorem priceMatchAt_none_of_head (sym : List Char) (c : Char)
    (cs : List Char) (h : c.toLower ≠ '"') :
    priceMatchAt sym (c :: cs) = none := by
  have hm : matchLitCI ('"' :: (sym ++ ['"'])) (c :: cs) = none :=
    matchLitCI_fail_head _ _ _ _ (by
      rw [show ('"' : Char).toLower = '"' from by decide]
      exact fun he => h he.symm)
  simp [priceMatchAt, symAnchorAt, hm]

theorem scanFirst_price_skip (sym xs ys : List Char)
    (h : ∀ c ∈ xs, c.toLower ≠ '"') :
    scanFirst (priceMatchAt sym) (xs ++ ys) =
      scanFirst (priceMatchAt sym) ys := by
  induction xs with
  | nil => rfl
  | cons c xs ih =>
    rw [List.cons_append]
    have hm := priceMatchAt_none_of_head sym c (xs ++ ys) (h c (by simp))
    simp only [scanFirst, hm]
    exact ih (fun d hd => h d (by simp [hd]))

theorem matchPriceTail_hit (ws3 ws4 digits mid2 : List Char)
    (hws3 : ∀ c ∈ ws3, isWsChar c = true)
    (hws4 : ∀ c ∈ ws4, isWsChar c = true)
    (hd : ∀ c ∈ digits, isDigitDot c = true)
    (hdw : ∀ c ∈ digits, isWsChar c = false)
    (hdne : digits ≠ [])
    (hm2h : ∀ c, mid2.head? = some c → isDigitDot c = false) :
    matchPriceTail (ws3 ++ ':' :: ws4 ++ digits ++ mid2) = some digits := by
  obtain ⟨d, dt, rfl⟩ : ∃ d dt, digits = d :: dt := by
    cases digits with
    | nil => exact absurd rfl hdne
    | cons d dt => exact ⟨d, dt, rfl⟩
  have h1 : dropWsL (ws3 ++ ':' :: ws4 ++ (d :: dt) ++ mid2) =
      ':' :: (ws4 ++ (d :: dt) ++ mid2) := by
    rw [show ws3 ++ ':' :: ws4 ++ (d :: dt) ++ mid2 =
        ws3 ++ ':' :: (ws4 ++ (d :: dt) ++ mid2) by simp,
      dropWsL_append_of_all _ _ hws3]
    exact dropWsL_cons_of_neg ':' _ (by decide)
  have h2 : dropWsL (ws4 ++ (d :: dt) ++ mid2) = (d :: dt) ++ mid2 := by
    rw [List.append_assoc, dropWsL_append_of_all _ _ hws4]
    exact dropWsL_cons_of_neg d _ (hdw d (by simp))
  have h3 : List.takeWhile isDigitDot ((d :: dt) ++ mid2) = d :: dt := by
    rw [takeWhile_append_of_all _ _ _ hd]
    cases hm : mid2 with
    | nil => simp
    | cons m mt =>
      have : isDigitDot m = false := hm2h m (by rw [hm]; rfl)
      simp [List.takeWhile_cons, this]
  simp only [matchPriceTail, h1, h2, h3]
  simp

theorem isWsChar_cases (c : Char) (h : isWsChar c = true) :
    c = ' ' ∨ c = '\t' ∨ c = '\n' ∨ c = '\r' ∨ c = '\x0b' ∨ c = '\x0c' := by
  have h2 := h
  simp only [isWsChar, Bool.or_eq_true, decide_eq_true_eq] at h2
  tauto

theorem wsChar_toLower_ne_quote (c : Char) (h : isWsChar c = true) :
    c.toLower ≠ '"' := by
  rcases isWsChar_cases c h with h | h | h | h | h | h <;> subst h <;> decide

theorem wsChar_toLower_ne_p (c : Char) (h : isWsChar c = true) :
    ('p' : Char).toLower ≠ c.toLower := by
  rcases isWsChar_cases c h with h | h | h | h | h | h <;> subst h <;> decide

theorem wsChar_ne_brace (c : Char) (h : isWsChar c = true) :
    c ≠ '\x7d' := by
  rcases isWsChar_cases c h with h | h | h | h | h | h <;> subst h <;> decide

theorem priceCaptures_cons_eq (c : Char) (cs : List Char) :
    priceCaptures (c :: cs) =
      (match matchLitCI priceKeyPat (c :: cs) with
       | some rest =>
         match matchPriceTail rest with
         | some cap => [cap]
         | none => []
       | none => []) ++ priceCaptures cs := rfl

theorem priceCaptures_cons_nomatch (c : Char) (cs : List Char)
    (h : matchLitCI priceKeyPat (c :: cs) = none) :
    priceCaptures (c :: cs) = priceCaptures cs := by
  rw [priceCaptures_cons_eq, h]
  rfl

theorem priceCaptures_nil_of_noquote (xs : List Char)
    (h : ∀ c ∈ xs, c.toLower ≠ '"') : priceCaptures xs = [] := by
  induction xs with
  | nil => rfl
  | cons c cs ih =>
    rw [priceCaptures_cons_noquote c _ (h c (by simp))]
    exact ih (fun d hd => h d (by simp [hd]))

theorem priceCaptures_fragment (mid1 ws3 ws4 digits mid2 : List Char)
    (hm1 : ∀ c ∈ mid1, c.toLower ≠ '"')
    (hws3 : ∀ c ∈ ws3, isWsChar c = true)
    (hws4 : ∀ c ∈ ws4, isWsChar c = true)
    (hd : ∀ c ∈ digits, isDigitDot c = true)
    (hdw : ∀ c ∈ digits, isWsChar c = false)
    (hdq : ∀ c ∈ digits, c.toLower ≠ '"')
    (hdne : digits ≠ [])
    (hm2q : ∀ c ∈ mid2, c.toLower ≠ '"')
    (hm2h : ∀ c, mid2.head? = some c → isDigitDot c = false) :
    priceCaptures
        (mid1 ++ priceKeyPat ++ ws3 ++ ':' :: ws4 ++ digits ++ mid2) =
      [digits] := by
  have htail : ∀ c ∈ ws3 ++ ':' :: ws4 ++ digits ++ mid2,
      c.toLower ≠ '"' := by
    intro c hc
    rcases List.mem_append.mp hc with h | h
    · rcases List.mem_append.mp h with h | h
      · rcases List.mem_append.mp h with h | h
        · exact wsChar_toLower_ne_quote c (hws3 c h)
        · rcases List.mem_cons.mp h with h | h
          · subst h; decide
          · exact wsChar_toLower_ne_quote c (hws4 c h)
      · exact hdq c h
    · exact hm2q c h
  rw [show mid1 ++ priceKeyPat ++ ws3 ++ ':' :: ws4 ++ digits ++ mid2 =
      mid1 ++ (priceKeyPat ++ (ws3 ++ ':' :: ws4 ++ digits ++ mid2)) by
    simp]
  rw [priceCaptures_skip mid1 _ hm1]
  have hm2 : matchLitCI priceKeyPat
      ('"' :: (['p', 'r', 'i', 'c', 'e', '"'] ++
        (ws3 ++ ':' :: ws4 ++ digits ++ mid2))) =
      some (ws3 ++ ':' :: ws4 ++ digits ++ mid2) :=
    matchLitCI_self priceKeyPat (ws3 ++ ':' :: ws4 ++ digits ++ mid2)
  have hpt : matchPriceTail (ws3 ++ ':' :: ws4 ++ digits ++ mid2) =
      some digits :=
    matchPriceTail_hit ws3 ws4 digits mid2 hws3 hws4 hd hdw hdne hm2h
  rw [show priceKeyPat ++ (ws3 ++ ':' :: ws4 ++ digits ++ mid2) =
      '"' :: (['p', 'r', 'i', 'c', 'e', '"'] ++
        (ws3 ++ ':' :: ws4 ++ digits ++ mid2)) from rfl]
  rw [priceCaptures_cons_eq]
  simp only [hm2, hpt]
  rw [show (['p', 'r', 'i', 'c', 'e', '"'] : List Char) ++
      (ws3 ++ ':' :: ws4 ++ digits ++ mid2) =
      ['p', 'r', 'i', 'c', 'e'] ++
        ('"' :: (ws3 ++ ':' :: ws4 ++ digits ++ mid2)) from rfl]
  rw [priceCaptures_skip ['p', 'r', 'i', 'c', 'e'] _ (by decide)]
  have hm3 : matchLitCI priceKeyPat
      ('"' :: (ws3 ++ ':' :: ws4 ++ digits ++ mid2)) = none := by
    rw [show priceKeyPat = '"' :: ['p', 'r', 'i', 'c', 'e', '"'] from rfl]
    have hstep : matchLitCI ('"' :: ['p', 'r', 'i', 'c', 'e', '"'])
        ('"' :: (ws3 ++ ':' :: ws4 ++ digits ++ mid2)) =
        matchLitCI ['p', 'r', 'i', 'c', 'e', '"']
          (ws3 ++ ':' :: ws4 ++ digits ++ mid2) := by
      simp [matchLitCI]
    rw [hstep]
    cases hw : ws3 with
    | nil =>
      exact matchLitCI_fail_head 'p' ':' _ _ (by decide)
    | cons w ws =>
      exact matchLitCI_fail_head 'p' w _ _
        (wsChar_toLower_ne_p w (hws3 w (by rw [hw]; simp)))
  rw [priceCaptures_cons_nomatch _ _ hm3]
  rw [priceCaptures_nil_of_noquote _ htail]
  rfl

theorem symAnchorAt_hit (sym ws1 ws2 rest : List Char)
    (hws1 : ∀ c ∈ ws1, isWsChar c = true)
    (hws2 : ∀ c ∈ ws2, isWsChar c = true) :
    symAnchorAt sym
      ('"' :: (sym ++ ('"' :: (ws1 ++ (':' :: (ws2 ++ ('\x7b' :: rest))))))) =
      some rest := by
  unfold symAnchorAt
  have h1 : matchLitCI ('"' :: (sym ++ ['"']))
      ('"' :: (sym ++ ('"' :: (ws1 ++ (':' :: (ws2 ++ ('\x7b' :: rest))))))) =
      some (ws1 ++ (':' :: (ws2 ++ ('\x7b' :: rest)))) := by
    have h := matchLitCI_self ('"' :: (sym ++ ['"']))
      (ws1 ++ (':' :: (ws2 ++ ('\x7b' :: rest))))
    simpa [List.append_assoc] using h
  simp only [h1]
  simp only [dropWsL_append_of_all ws1 (':' :: (ws2 ++ ('\x7b' :: rest))) hws1,
    dropWsL_cons_of_neg ':' (ws2 ++ ('\x7b' :: rest)) (by decide)]
  simp only [dropWsL_append_of_all ws2 ('\x7b' :: rest) hws2,
    dropWsL_cons_of_neg '\x7b' rest (by decide)]

theorem priceMatchAt_hit (sym ws1 ws2 R post digits : List Char)
    (hws1 : ∀ c ∈ ws1, isWsChar c = true)
    (hws2 : ∀ c ∈ ws2, isWsChar c = true)
    (hRb : ∀ c ∈ R, c ≠ '\x7d')
    (hcap : priceCaptures R = [digits]) :
    priceMatchAt sym
      ('"' :: (sym ++ ('"' :: (ws1 ++ (':' :: (ws2 ++
        ('\x7b' :: (R ++ ('\x7d' :: post))))))))) = some digits := by
  unfold priceMatchAt
  rw [symAnchorAt_hit sym ws1 ws2 _ hws1 hws2]
  have ht : List.takeWhile (fun c => c ≠ '\x7d') (R ++ ('\x7d' :: post)) =
      R := by
    rw [takeWhile_append_of_all _ _ _ (fun c hc => by
      simpa using hRb c hc)]
    simp [List.takeWhile_cons]
  have hdp : List.dropWhile (fun c => c ≠ '\x7d') (R ++ ('\x7d' :: post)) =
      '\x7d' :: post := by
    rw [dropWhile_append_of_all _ _ _ (fun c hc => by
      simpa using hRb c hc)]
    simp [List.dropWhile_cons]
  simp only [ht, hdp, hcap]
  rfl

theorem scanFirst_price_fragText
    (pre sym ws1 ws2 mid1 ws3 ws4 digits mid2 post : List Char)
    (hpre : ∀ c ∈ pre, c.toLower ≠ '"')
    (hws1 : ∀ c ∈ ws1, isWsChar c = true)
    (hws2 : ∀ c ∈ ws2, isWsChar c = true)
    (hm1q : ∀ c ∈ mid1, c.toLower ≠ '"')
    (hm1b : ∀ c ∈ mid1, c ≠ '\x7d')
    (hws3 : ∀ c ∈ ws3, isWsChar c = true)
    (hws4 : ∀ c ∈ ws4, isWsChar c = true)
    (hd : ∀ c ∈ digits, isDigitDot c = true)
    (hdw : ∀ c ∈ digits, isWsChar c = false)
    (hdq : ∀ c ∈ digits, c.toLower ≠ '"')
    (hdb : ∀ c ∈ digits, c ≠ '\x7d')
    (hdne : digits ≠ [])
    (hm2q : ∀ c ∈ mid2, c.toLower ≠ '"')
    (hm2b : ∀ c ∈ mid2, c ≠ '\x7d')
    (hm2h : ∀ c, mid2.head? = some c → isDigitDot c = false) :
    scanFirst (priceMatchAt sym)
      (fragText pre sym ws1 ws2 mid1 ws3 ws4 digits mid2 post) =
      some digits := by
  have hR : priceCaptures
      (mid1 ++ priceKeyPat ++ ws3 ++ ':' :: ws4 ++ digits ++ mid2) =
      [digits] :=
    priceCaptures_fragment mid1 ws3 ws4 digits mid2 hm1q hws3 hws4 hd hdw
      hdq hdne hm2q hm2h
  have hRb : ∀ c ∈ mid1 ++ priceKeyPat ++ ws3 ++ ':' :: ws4 ++ digits ++
      mid2, c ≠ '\x7d' := by
    intro c hc
    rcases List.mem_append.mp hc with h | h
    · rcases List.mem_append.mp h with h | h
      · rcases List.mem_append.mp h with h | h
        · rcases List.mem_append.mp h with h | h
          · rcases List.mem_append.mp h with h | h
            · exact hm1b c h
            · rw [show priceKeyPat = ['"', 'p', 'r', 'i', 'c', 'e', '"']
                from rfl] at h
              fin_cases h <;> decide
          · exact wsChar_ne_brace c (hws3 c h)
        · rcases List.mem_cons.mp h with h | h
          · subst h; decide
          · exact wsChar_ne_brace c (hws4 c h)
      · exact hdb c h
    · exact hm2b c h
  have hfrag : fragText pre sym ws1 ws2 mid1 ws3 ws4 digits mid2 post =
      pre ++ ('"' :: (sym ++ ('"' :: (ws1 ++ (':' :: (ws2 ++
        ('\x7b' :: ((mid1 ++ priceKeyPat ++ ws3 ++ ':' :: ws4 ++ digits ++
          mid2) ++ ('\x7d' :: post))))))))) := by
    simp [fragText, List.append_assoc]
  rw [hfrag, scanFirst_price_skip sym pre _ hpre]
  have hp := priceMatchAt_hit sym ws1 ws2
    (mid1 ++ priceKeyPat ++ ws3 ++ ':' :: ws4 ++ digits ++ mid2) post digits
    hws1 hws2 hRb hR
  simp only [scanFirst, hp]

theorem fallbackData_foldl_aux (text : List Char) (k : String) :
    ∀ (L : List String) (acc : String → Option JEntry),
      (L.foldl (fun acc sym =>
        match fallbackEntry sym.data text with
        | some e => fun k2 => if k2 = sym then some e else acc k2
        | none => acc) acc) k =
      if k ∈ L ∧ (fallbackEntry k.data text).isSome then
        fallbackEntry k.data text
      else acc k := by
  intro L
  induction L with
  | nil => intro acc; simp
  | cons a rest ih =>
    intro acc
    rw [List.foldl_cons]
    cases hfe : fallbackEntry a.data text with
    | none =>
      rw [ih acc]
      by_cases hka : k = a
      · subst hka
        simp [hfe]
      · simp [List.mem_cons, hka]
    | some e =>
      rw [ih]
      by_cases hka : k = a
      · subst hka
        by_cases hkr : k ∈ rest <;> simp [hfe, hkr]
      · simp [List.mem_cons, hka]

theorem fallbackData_lookup (text : List Char) (syms : List String)
    (k : String) :
    fallbackData text syms k =
      if k ∈ syms then fallbackEntry k.data text else none := by
  unfold fallbackData
  rw [fallbackData_foldl_aux text k syms (fun _ => none)]
  by_cases hk : k ∈ syms
  · by_cases hs : (fallbackEntry k.data text).isSome
    · simp [hk, hs]
    · simp only [hk, hs, and_false, if_false, if_pos]
      exact (Option.not_isSome_iff_eq_none.mp hs).symm
  · simp [hk]

/-- C5: (1) escaping makes every symbol's search pattern a well-formed
pure literal denoting exactly that symbol, so pattern construction cannot
abort the batch even for symbols with pattern-special characters;
(2) the fallback data record maps each requested symbol to the outcome of
its own extraction alone, so one symbol's failure never affects another;
(3) a text containing a recognizable `"SYM": \x7b ... "price": p ... \x7d`
fragment (the only quote-delimited material in the surrounding prefix and
object body, as spelled out by the hypotheses) resolves `SYM` to the
price `p`, for an arbitrary symbol — including ones containing `(`, `)`,
`[` or `.`. -/
theorem claim5_fallback_extraction :
    (∀ s : String, parseRegexLiteral (escapeRegExp s).data = some s.data) ∧
    (∀ (text : List Char) (syms : List String) (k : String),
      fallbackData text syms k =
        if k ∈ syms then fallbackEntry k.data text else none) ∧
    (∀ pre sym ws1 ws2 mid1 ws3 ws4 digits mid2 post : List Char,
      (∀ c ∈ pre, c.toLower ≠ '"') →
      (∀ c ∈ ws1, isWsChar c = true) →
      (∀ c ∈ ws2, isWsChar c = true) →
      (∀ c ∈ mid1, c.toLower ≠ '"') →
      (∀ c ∈ mid1, c ≠ '\x7d') →
      (∀ c ∈ ws3, isWsChar c = true) →
      (∀ c ∈ ws4, isWsChar c = true) →
      (∀ c ∈ digits, isDigitDot c = true) →
      (∀ c ∈ digits, isWsChar c = false) →
      (∀ c ∈ digits, c.toLower ≠ '"') →
      (∀ c ∈ digits, c ≠ '\x7d') →
      digits ≠ [] →
      (∀ c ∈ mid2, c.toLower ≠ '"') →
      (∀ c ∈ mid2, c ≠ '\x7d') →
      (∀ c, mid2.head? = some c → isDigitDot c = false) →
      (fallbackEntry sym
        (fragText pre sym ws1 ws2 mid1 ws3 ws4 digits mid2 post)).map
          JEntry.price = some (parseFloatQ digits)) := by
  refine ⟨?_, fallbackData_lookup, ?_⟩
  · intro s
    rw [show (escapeRegExp s).data = escapeRegExpList s.data from rfl]
    exact parseRegexLiteral_escape s.data
  · intro pre sym ws1 ws2 mid1 ws3 ws4 digits mid2 post hpre hws1 hws2
      hm1q hm1b hws3 hws4 hd hdw hdq hdb hdne hm2q hm2b hm2h
    have hscan := scanFirst_price_fragText pre sym ws1 ws2 mid1 ws3 ws4
      digits mid2 post hpre hws1 hws2 hm1q hm1b hws3 hws4 hd hdw hdq hdb
      hdne hm2q hm2b hm2h
    simp [fallbackEntry, hscan]

/-- Witness for C5: the spec's example — strict parsing failed, the text
contains a price fragment for the parenthesized symbol `X(1)`, and
fallback extraction resolves it to 12.5. -/
theorem claim5_fallback_extraction_witness :
    (fallbackEntry "X(1)".data
      (fragText "intro ".data "X(1)".data [] [' '] [] [] [' ']
        "12.5".data [] [])).map JEntry.price =
      some (some (25 / 2)) := by
  have h := claim5_fallback_extraction.2.2 "intro ".data "X(1)".data []
    [' '] [] [] [' '] "12.5".data [] [] (by decide) (by decide) (by decide)
    (by decide) (by decide) (by decide) (by decide) (by decide) (by decide)
    (by decide) (by decide) (by decide) (by decide) (by decide)
    (fun c h => Option.noConfusion h)
  rw [h]
  have e1 : digitsToNat ['1', '2'] = 12 := rfl
  have e2 : digitsToNat ['5'] = 5 := rfl
  rw [show parseFloatQ "12.5".data =
      some ((digitsToNat ['1', '2'] : ℚ) +
        (digitsToNat ['5'] : ℚ) / (10 : ℚ) ^ (1 : ℕ)) from rfl, e1, e2]
  norm_num
